import Mathlib

/-!
Verification of the dataset SDK core: the TOS-backed Torch dataset
(`ml_platform_sdk/io/tos_files_io.py`), manifest URL parsing and the
train/test splitter (`volcengine_ml_platform/datasets/image_dataset.py`,
`volcengine_ml_platform/datasets/text_dataset.py`).

Python values carried by manifests (the output of `json.loads`) are
modelled by the inductive `JVal`; Python exceptions are modelled by
`Option`/`Except` results; external collaborators (the TOS client, the
PIL codec, numpy's random sampler) are modelled as explicit parameters
or, for the sampler, a concrete deterministic function satisfying the
contract the code relies on.
-/

set_option autoImplicit false
set_option linter.unusedVariables false

namespace MLPlatform


/-- A JSON-like value, modelling the Python objects produced by
`json.loads` on a manifest line and the annotation payloads carried
through the SDK. -/
inductive JVal where
  | jnull : JVal
  | jbool : Bool → JVal
  | jint : Int → JVal
  | jstr : String → JVal
  | jarr : List JVal → JVal
  | jobj : List (String × JVal) → JVal

/-- Python `v[k]` on a dict, returning `none` where Python raises
`KeyError`/`TypeError` (missing key or non-dict value). First binding
wins, matching a dict whose keys are distinct. -/
def jget : JVal → String → Option JVal
  | JVal.jobj kvs, k => (kvs.find? (fun p => p.1 == k)).map Prod.snd
  | _, _ => none

/-- Python `v[i]` on a list, returning `none` where Python raises
`IndexError`/`TypeError`. -/
def jidx : JVal → Nat → Option JVal
  | JVal.jarr xs, i => xs.get? i
  | _, _ => none

/-- Accumulate the value of a run of decimal digits; `none` on the first
non-digit character. -/
def decDigitsAux (acc : Nat) : List Char → Option Nat
  | [] => some acc
  | c :: cs => if c.isDigit then decDigitsAux (acc * 10 + (c.toNat - 48)) cs else none

/-- Python `int(s)` on a plain decimal string literal (optional leading
minus sign, then one or more digits); `none` where Python raises
`ValueError`. -/
def pyIntStr : List Char → Option Int
  | [] => none
  | '-' :: c :: cs => (decDigitsAux 0 (c :: cs)).map (fun n => -(n : Int))
  | '-' :: [] => none
  | c :: cs => if c.isDigit then (decDigitsAux 0 (c :: cs)).map (fun n => (n : Int)) else none

/-- Python `int(x)` applied to a manifest value: identity on integers,
0/1 on booleans, decimal parsing on strings, failure otherwise. -/
def pyInt : JVal → Option Int
  | JVal.jint n => some n
  | JVal.jbool b => some (if b then 1 else 0)
  | JVal.jstr s => pyIntStr s.data
  | _ => none

/-- `TorchTOSDataset._target_transform`:
`int(target['Result'][0]["Data"][0]["Label"])`, with `none` where any
lookup or the coercion raises. -/
def default_target_transform (target : JVal) : Option Int :=
  (jget target "Result").bind fun r =>
  (jidx r 0).bind fun r0 =>
  (jget r0 "Data").bind fun d =>
  (jidx d 0).bind fun d0 =>
  (jget d0 "Label").bind fun lab =>
  pyInt lab

/-- The `manifest_info` dict handed to `TorchTOSDataset.__init__`: the
three parallel arrays produced by manifest parsing. -/
structure ManifestInfo where
  buckets : List String
  keys : List String
  annotations : List JVal

/-- Failure modes of `TorchTOSDataset.__init__`: `noneManifest` models
the `TypeError` raised by subscripting `manifest_info = None`;
`invalidManifest` models the `AssertionError` from the length check
(the spec's `InvalidManifestError`). -/
inductive TOSInitError where
  | noneManifest : TOSInitError
  | invalidManifest : TOSInitError
deriving DecidableEq

/-- The state recorded by `TorchTOSDataset.__init__`; `Samp` is the
sample type produced by decoding. The credential and lazy TOS client
are external collaborators and are passed to `getitem` instead. -/
structure TorchTOSDataset (Samp : Type) where
  buckets : List String
  keys : List String
  annotations : List JVal
  decode : Option (List Nat → Samp)
  transform : Option (Samp → Samp)
  target_transform : Option (JVal → Int)

/-- `TorchTOSDataset.__init__`: subscripting a `None` manifest raises;
otherwise the two `assert`ed length equations must hold, and the three
sequences are recorded via `set_dataset_indices`. -/
def tos_init (Samp : Type) (manifest_info : Option ManifestInfo)
    (decode : Option (List Nat → Samp)) (transform : Option (Samp → Samp))
    (target_transform : Option (JVal → Int)) :
    Except TOSInitError (TorchTOSDataset Samp) :=
  match manifest_info with
  | none => Except.error TOSInitError.noneManifest
  | some mi =>
    if mi.buckets.length = mi.keys.length ∧ mi.buckets.length = mi.annotations.length then
      Except.ok
        { buckets := mi.buckets
          keys := mi.keys
          annotations := mi.annotations
          decode := decode
          transform := transform
          target_transform := target_transform }
    else Except.error TOSInitError.invalidManifest

/-- `TorchTOSDataset.__len__`: `len(self.buckets)`. -/
def tos_len {Samp : Type} (ds : TorchTOSDataset Samp) : Nat :=
  ds.buckets.length

/-- The decode step of `__getitem__`: the `decode` hook when supplied,
otherwise the default `_decode` backed by the PIL codec `pil`. -/
def decodeStep {Samp : Type} (decode : Option (List Nat → Samp))
    (pil : List Nat → Option Samp) (raw : List Nat) : Option Samp :=
  match decode with
  | some f => some (f raw)
  | none => pil raw

/-- The transform step of `__getitem__`: the `transform` hook when
supplied, otherwise the identity. -/
def transformStep {Samp : Type} (transform : Option (Samp → Samp)) (sample : Samp) : Samp :=
  match transform with
  | some f => f sample
  | none => sample

/-- The label step of `__getitem__`: the `target_transform` hook when
supplied, otherwise the default nested extractor `_target_transform`. -/
def targetStep (target_transform : Option (JVal → Int)) (ann : JVal) : Option Int :=
  match target_transform with
  | some f => some (f ann)
  | none => default_target_transform ann

/-- `TorchTOSDataset.__getitem__`. `store` models
`tos_client.get_object(bucket, key).read()` (the remote object store
collaborator, `none` = I/O failure); `pil` models the PIL image codec
used by the default `_decode` (`none` = decode failure). Index lookups,
the fetch, decoding and label extraction propagate failure as `none`,
matching the exceptions the Python code lets escape. -/
def getitem {Samp : Type} (ds : TorchTOSDataset Samp)
    (store : String → String → Option (List Nat))
    (pil : List Nat → Option Samp) (index : Nat) : Option (Samp × Int) :=
  (ds.buckets.get? index).bind fun bucket =>
  (ds.keys.get? index).bind fun key =>
  (ds.annotations.get? index).bind fun ann =>
  (store bucket key).bind fun raw =>
  (decodeStep ds.decode pil raw).bind fun sample =>
  (targetStep ds.target_transform ann).map fun lab =>
  (transformStep ds.transform sample, lab)

/-- A one-record dataset whose target-transform hook returns 7. -/
def c8dsHook : TorchTOSDataset Nat :=
  { buckets := ["b"], keys := ["k"], annotations := [JVal.jnull],
    decode := none, transform := none, target_transform := some (fun _ => 7) }

/-- An annotation of the nested `Result`/`Data`/`Label` shape consumed
by the default extractor. -/
def c8ann : JVal :=
  JVal.jobj [("Result", JVal.jarr [JVal.jobj [("Data",
    JVal.jarr [JVal.jobj [("Label", JVal.jstr "5")]])]])]

/-- A one-record dataset with no target-transform hook. -/
def c8dsDefault : TorchTOSDataset Nat :=
  { buckets := ["b"], keys := ["k"], annotations := [c8ann],
    decode := none, transform := none, target_transform := none }

/-! ### Manifest URL parsing (`ImageDataset.parse_image_manifest`)

Python string splitting is modelled on `List Char`: `splitFirst sep s`
finds the first occurrence of the separator and returns the text before
it and the text after it, and `pySplit` models Python `s.split(sep)` for
a non-empty separator (left-to-right, non-overlapping). -/

/-- First occurrence of `sep` in `s`: `some (before, after)` with `s =
before ++ sep ++ after` at the leftmost match, `none` when `sep` does
not occur. -/
def splitFirst (sep : List Char) : List Char → Option (List Char × List Char)
  | [] => none
  | c :: cs =>
    if sep.isPrefixOf (c :: cs) then some ([], (c :: cs).drop sep.length)
    else
      match splitFirst sep cs with
      | none => none
      | some (a, b) => some (c :: a, b)

/-- Fuel-driven splitting loop; `fuel ≥ s.length` makes it total for a
non-empty separator. -/
def pySplitAux (sep : List Char) : Nat → List Char → List (List Char)
  | 0, s => [s]
  | Nat.succ fuel, s =>
    match splitFirst sep s with
    | none => [s]
    | some (a, b) => a :: pySplitAux sep fuel b

/-- Python `s.split(sep)` for a non-empty separator `sep`. -/
def pySplit (sep s : List Char) : List (List Char) :=
  pySplitAux sep s.length s

/-- `ImageDataset.parse_image_manifest`, URL step:
`bucket = url.split("//")[1].split("/")[0]` and
`key = url.split(bucket + "/")[1]`, with `none` where Python raises
`IndexError` on the `[1]` subscripts. -/
def parse_image_url (url : List Char) : Option (List Char × List Char) :=
  match (pySplit ['/', '/'] url).get? 1 with
  | none => none
  | some rest =>
    let bucket := (pySplit ['/'] rest).headD []
    match (pySplit (bucket ++ ['/']) url).get? 1 with
    | none => none
    | some key => some (bucket, key)

/-- A manifest value that must be a Python `str` (so that `.split` is
available on it); `none` models the `AttributeError` otherwise. -/
def asStr : JVal → Option String
  | JVal.jstr s => some s
  | _ => none

/-- `ImageDataset.parse_image_manifest`: one record per manifest line,
reading `line["Data"]["ImageURL"]`, splitting it into bucket and key,
and carrying `line["Annotation"]` verbatim, appending to the three
parallel arrays in file order. The manifest file is modelled as the
list of its already-JSON-decoded lines. -/
def parse_image_manifest : List JVal → Option ManifestInfo
  | [] => some ⟨[], [], []⟩
  | line :: rest =>
    (jget line "Data").bind fun d =>
    (jget d "ImageURL").bind fun urlv =>
    (asStr urlv).bind fun url =>
    (parse_image_url url.data).bind fun bk =>
    (jget line "Annotation").bind fun ann =>
    (parse_image_manifest rest).map fun mi =>
    ⟨String.mk bk.1 :: mi.buckets, String.mk bk.2 :: mi.keys, ann :: mi.annotations⟩

/-- A one-line manifest used by the C9 witness. -/
def c9line : JVal :=
  JVal.jobj [("Data", JVal.jobj [("ImageURL", JVal.jstr "tos://b/k")]),
    ("Annotation", JVal.jnull)]

/-- The parallel arrays that `parse_image_manifest` produces on
`[c9line]`. -/
def c9mi : ManifestInfo := ⟨["b"], ["k"], [JVal.jnull]⟩

/-! ### The train/test splitter (`ImageDataset.split` / `TextDataset.split`)

The two `split` methods are textually identical; they are modelled once
by `dataset_split`. -/

/-- Modelled from the spec: the `_Dataset` facade state of
`volcengine_ml_platform/datasets/dataset.py` (that file is not under
`src/`): a dataset tracks a local path, a record count `data_count`, a
`created` materialization flag, and — once materialized — the local
manifest, modelled as its list of JSON-decoded lines. -/
structure PyDataset where
  local_path : String
  data_count : Nat
  created : Bool
  manifest : List JVal

/-- The error raised by `split` on a non-materialized dataset:
`raise Exception("datasets has not been created")`, the spec's
`NotMaterializedError`. -/
inductive SplitError where
  | notMaterialized : SplitError
deriving DecidableEq

/-- File-system effects performed by `split`, in execution order:
directory creation, `dataset_copy_file(record, src_dir, dst_dir)`, and
appending a record line to a destination manifest file. -/
inductive FsEffect where
  | mkdir : String → FsEffect
  | copyFile : JVal → String → String → FsEffect
  | appendManifest : String → JVal → FsEffect

/-- A linear congruential step used by the modelled sampler. -/
def lcg (s : Nat) : Nat := (1103515245 * s + 12345) % 2147483648

/-- Remove and return the element at position `i` of the pool. -/
def pick : List Nat → Nat → Nat × List Nat
  | [], _ => (0, [])
  | x :: xs, 0 => (x, xs)
  | x :: xs, Nat.succ i =>
    let p := pick xs i
    (p.1, x :: p.2)

/-- Draw `k` elements without replacement from the pool, driving the
position choice with the LCG state. -/
def sampleGo : Nat → Nat → List Nat → List Nat
  | _, 0, _ => []
  | _, Nat.succ _, [] => []
  | sd, Nat.succ k, x :: xs =>
    let p := pick (x :: xs) (sd % (x :: xs).length)
    p.1 :: sampleGo (lcg sd) k p.2

/-- Modelled from the documented contract of numpy's seeded sampler:
`np.random.seed(random_state)` followed by
`np.random.choice(n, k, replace=False)` (numpy is an external
collaborator, not part of this repository). A deterministic
pseudo-random draw of `k` distinct indices from `[0, n)`. -/
def npChoice (seed n k : Nat) : List Nat :=
  sampleGo (lcg seed) k (List.range n)

/-- The single pass of `split` over the manifest lines: from position
`index` on, route each line (and its payload-copy and manifest-append
effects) to the testing side exactly when its position is in the test
index set, and to the training side otherwise; order is preserved.
Returns (train lines, test lines, effects). -/
def route (test_index_set : List Nat) (local_path training_dir testing_dir : String) :
    Nat → List JVal → List JVal × List JVal × List FsEffect
  | _, [] => ([], [], [])
  | index, line :: rest =>
    let r := route test_index_set local_path training_dir testing_dir (index + 1) rest
    if index ∈ test_index_set then
      (r.1, line :: r.2.1,
        FsEffect.copyFile line local_path testing_dir ::
          FsEffect.appendManifest testing_dir line :: r.2.2)
    else
      (line :: r.1, r.2.1,
        FsEffect.copyFile line local_path training_dir ::
          FsEffect.appendManifest training_dir line :: r.2.2)

/-- Everything `split` produces on success: the drawn test index set,
the two new manifest contents, the file-system effect trace (in
execution order), and the two returned dataset facades. -/
structure SplitResult where
  test_index_set : List Nat
  train_manifest : List JVal
  test_manifest : List JVal
  effects : List FsEffect
  train_dataset : PyDataset
  test_dataset : PyDataset

/-- `ImageDataset.split` / `TextDataset.split` (identical code). The
`created` check precedes every file-system effect, exactly as in the
source, so the error branch carries no effects at all. The test-set
size expression `math.floor(line_count * (1 - ratio))` is idealized
here over exact rationals; the program evaluates it in IEEE binary64
arithmetic, modelled separately by `float_floor_size`, and the two
disagree at ordinary inputs such as `line_count = 10`, `ratio = 0.8`
(the C1 code bug). The properties proved about this model elsewhere do
not depend on the numeric value of that size. -/
def dataset_split (ds : PyDataset) (training_dir testing_dir : String) ( ratio : ℚ)
    (random_state : Nat) : Except SplitError SplitResult :=
  if ds.created = true then
    let line_count := ds.data_count
    let k := (Int.floor ((line_count : ℚ) * (1 - ratio))).toNat
    let tset := npChoice random_state line_count k
    let r := route tset ds.local_path training_dir testing_dir 0 ds.manifest
    Except.ok
      { test_index_set := tset
        train_manifest := r.1
        test_manifest := r.2.1
        effects := FsEffect.mkdir testing_dir :: FsEffect.mkdir training_dir :: r.2.2
        train_dataset :=
          { local_path := training_dir, data_count := line_count - k,
            created := true, manifest := r.1 }
        test_dataset :=
          { local_path := testing_dir, data_count := k,
            created := true, manifest := r.2.1 } }
  else Except.error SplitError.notMaterialized

/-- The `SplitResult` built on the success path of `dataset_split`
(named so proofs can exhibit it as the existential witness). It shares
`dataset_split`'s exact-rational idealization of the size expression;
see `float_floor_size` for the IEEE binary64 evaluation the program
actually performs. -/
def split_ok (ds : PyDataset) (training_dir testing_dir : String) ( ratio : ℚ)
    (random_state : Nat) : SplitResult :=
  let k := (Int.floor ((ds.data_count : ℚ) * (1 - ratio))).toNat
  let tset := npChoice random_state ds.data_count k
  let r := route tset ds.local_path training_dir testing_dir 0 ds.manifest
  { test_index_set := tset
    train_manifest := r.1
    test_manifest := r.2.1
    effects := FsEffect.mkdir testing_dir :: FsEffect.mkdir training_dir :: r.2.2
    train_dataset :=
      { local_path := training_dir, data_count := ds.data_count - k,
        created := true, manifest := r.1 }
    test_dataset :=
      { local_path := testing_dir, data_count := k,
        created := true, manifest := r.2.1 } }

/-! ### IEEE binary64 model of the test-set size expression

The program computes the test-set size as
`math.floor(line_count * (1 - ratio))` in IEEE binary64 (double)
arithmetic over values that are all dyadic rationals `m * 2^p`. The
definitions below model that evaluation exactly in integer arithmetic:
a double is a pair `(m, p)` of mantissa and exponent with value
`m * 2^p`, every operation rounds its exact result to 53 significant
bits with round-to-nearest, ties to even (overflow and subnormals do
not arise in this range), and `roundFracB64` models CPython's parsing
of a decimal literal `a/b` into the nearest double. -/

/-- Number of binary digits of `n` (`0` for `0`), computed with
structural fuel so the kernel can evaluate it. -/
def bitLenAux : Nat → Nat → Nat
  | 0, _ => 0
  | fuel + 1, n => if n = 0 then 0 else bitLenAux fuel (n / 2) + 1

/-- Bit length of a natural number: `bitLen n = ⌈log2 (n+1)⌉`. -/
def bitLen (n : Nat) : Nat := bitLenAux n n

/-- Decide `c * b ≤ a * 2^t` for an integer exponent `t` using only
natural arithmetic. -/
def fracGe (a b : Nat) (t : Int) (c : Nat) : Bool :=
  if 0 ≤ t then decide (c * b ≤ a * 2 ^ t.toNat)
  else decide (c * b * 2 ^ (-t).toNat ≤ a)

/-- Nearest binary64 to the positive fraction `a / b` (round to
nearest, ties to even), returned as mantissa and exponent `(m, p)` with
value `m * 2^p`: models CPython's decimal-literal-to-double
conversion. -/
def roundFracB64 (a b : Nat) : Int × Int :=
  let la := bitLen a
  let lb := bitLen b
  let t0 : Int := 52 + (lb : Int) - (la : Int)
  let t : Int := if fracGe a b t0 (2 ^ 52) then t0 else t0 + 1
  let num : Nat := a * 2 ^ t.toNat
  let den : Nat := b * 2 ^ (-t).toNat
  let q := num / den
  let r := num % den
  let m : Nat :=
    if 2 * r < den then q
    else if den < 2 * r then q + 1
    else if q % 2 = 0 then q else q + 1
  ((m : Int), -t)

/-- Exact difference of two dyadic values `m1·2^p1 - m2·2^p2`. -/
def dyadicSub (m1 p1 m2 p2 : Int) : Int × Int :=
  let p := min p1 p2
  (m1 * 2 ^ (p1 - p).toNat - m2 * 2 ^ (p2 - p).toNat, p)

/-- Round a dyadic value `m·2^p` to 53 significant bits, round to
nearest, ties to even: the binary64 rounding step applied after every
arithmetic operation. -/
def dyadicRound53 (m p : Int) : Int × Int :=
  let n := m.natAbs
  let l := bitLen n
  if l ≤ 53 then (m, p)
  else
    let sh := l - 53
    let q := n / 2 ^ sh
    let r := n % 2 ^ sh
    let half := 2 ^ (sh - 1)
    let q' : Nat :=
      if r < half then q
      else if half < r then q + 1
      else if q % 2 = 0 then q else q + 1
    (if m < 0 then -(q' : Int) else (q' : Int), p + (sh : Int))

/-- Correctly rounded binary64 multiplication of dyadic values. -/
def dyadicMulRound (m1 p1 m2 p2 : Int) : Int × Int :=
  dyadicRound53 (m1 * m2) (p1 + p2)

/-- Correctly rounded binary64 subtraction of dyadic values. -/
def dyadicSubRound (m1 p1 m2 p2 : Int) : Int × Int :=
  let s := dyadicSub m1 p1 m2 p2
  dyadicRound53 s.1 s.2

/-- `math.floor` of a dyadic value `m·2^p` (exact on doubles). -/
def dyadicFloor (m p : Int) : Int :=
  if 0 ≤ p then m * 2 ^ p.toNat else Int.fdiv m (2 ^ (-p).toNat)

/-- The IEEE binary64 evaluation of the source expression
`math.floor(line_count * (1 - ratio))` (image_dataset.py line 81,
text_dataset.py line 71): `ratio` is the stored double `md·2^pd`,
`line_count` is converted to a double (rounded if at least `2^53`),
`1 - ratio` and the product each round their exact result, and
`math.floor` is exact. -/
def float_floor_size (line_count : Nat) (md pd : Int) : Int :=
  let nd := dyadicRound53 (Int.ofNat line_count) 0
  let d1 := dyadicSubRound 1 0 md pd
  let pr := dyadicMulRound nd.1 nd.2 d1.1 d1.2
  dyadicFloor pr.1 pr.2

/-- A materialized two-record dataset. -/
def c3created : PyDataset := ⟨"p", 2, true, [JVal.jnull, JVal.jnull]⟩

/-- The same dataset before materialization. -/
def c3uncreated : PyDataset := ⟨"p", 2, false, [JVal.jnull, JVal.jnull]⟩

/-- One of the two datasets of the C2 witness. -/
def c2ds1 : PyDataset := ⟨"a", 4, true, []⟩

/-- The other C2 witness dataset: same count, different path and
manifest. -/
def c2ds2 : PyDataset := ⟨"b", 4, true, [JVal.jnull, JVal.jnull, JVal.jnull, JVal.jnull]⟩

/-- The C6 witness dataset. -/
def c6ds : PyDataset := ⟨"d", 2, true, [JVal.jint 1, JVal.jint 2]⟩

/-- The C7 witness dataset. -/
def c7ds : PyDataset := ⟨"d", 3, true, [JVal.jint 7, JVal.jint 8, JVal.jint 9]⟩

/-- Claim C10: constructing `TorchTOSDataset` with `manifest_info = None`
(the default) always fails — the constructor unconditionally subscripts
`manifest_info`, so the `None` default is unusable and no empty dataset
is ever produced. -/
theorem tos_init_none_fails (Samp : Type) (decode : Option (List Nat → Samp))
    (transform : Option (Samp → Samp)) (target_transform : Option (JVal → Int)) :
    tos_init Samp none decode transform target_transform =
      Except.error TOSInitError.noneManifest := rfl

/-- Claim C4: `TorchTOSDataset.__init__` fails with the invalid-manifest
error whenever any two of the three sequences have different lengths,
and when all lengths agree it succeeds and records all three sequences. -/
theorem tos_init_length_check (Samp : Type) (mi : ManifestInfo)
    (decode : Option (List Nat → Samp)) (transform : Option (Samp → Samp))
    (target_transform : Option (JVal → Int)) :
    ((mi.buckets.length ≠ mi.keys.length ∨ mi.buckets.length ≠ mi.annotations.length ∨
        mi.keys.length ≠ mi.annotations.length) →
      tos_init Samp (some mi) decode transform target_transform =
        Except.error TOSInitError.invalidManifest) ∧
    (mi.buckets.length = mi.keys.length → mi.buckets.length = mi.annotations.length →
      ∃ ds, tos_init Samp (some mi) decode transform target_transform = Except.ok ds ∧
        ds.buckets = mi.buckets ∧ ds.keys = mi.keys ∧ ds.annotations = mi.annotations) := by
  constructor
  · intro h
    have hne : ¬(mi.buckets.length = mi.keys.length ∧
        mi.buckets.length = mi.annotations.length) := by
      rintro ⟨h1, h2⟩
      rcases h with h | h | h
      · exact h h1
      · exact h h2
      · exact h (h1 ▸ h2)
    simp only [tos_init, if_neg hne]
  · intro h1 h2
    refine ⟨{ buckets := mi.buckets, keys := mi.keys, annotations := mi.annotations,
              decode := decode, transform := transform,
              target_transform := target_transform }, ?_, rfl, rfl, rfl⟩
    simp only [tos_init, if_pos (And.intro h1 h2)]

/-- Witness for C4 at concrete inputs: mismatched lengths fail, equal
lengths succeed with the sequences recorded. -/
theorem tos_init_length_check_witness :
    (tos_init Nat (some ⟨["a"], [], []⟩) none none none =
      Except.error TOSInitError.invalidManifest) ∧
    (∃ ds, tos_init Nat (some ⟨["a"], ["k"], [JVal.jnull]⟩) none none none = Except.ok ds ∧
      ds.buckets = ["a"] ∧ ds.keys = ["k"] ∧ ds.annotations = [JVal.jnull]) :=
  ⟨(tos_init_length_check Nat ⟨["a"], [], []⟩ none none none).1 (Or.inl (by decide)),
   (tos_init_length_check Nat ⟨["a"], ["k"], [JVal.jnull]⟩ none none none).2 rfl rfl⟩

/-- Claim C8: in `__getitem__`, when a target-transform hook is supplied
the returned label is exactly the hook applied to the record's
annotation (the default extractor is never consulted); with no hook the
label is the integer coercion of
`annotation['Result'][0]['Data'][0]['Label']`. -/
theorem getitem_label {Samp : Type} (ds : TorchTOSDataset Samp)
    (store : String → String → Option (List Nat)) (pil : List Nat → Option Samp)
    (index : Nat) (s : Samp) (lab : Int) (ann : JVal)
    (hann : ds.annotations.get? index = some ann)
    (hget : getitem ds store pil index = some (s, lab)) :
    (∀ f, ds.target_transform = some f → lab = f ann) ∧
    (ds.target_transform = none →
      ∃ r r0 d d0 lv, jget ann "Result" = some r ∧ jidx r 0 = some r0 ∧
        jget r0 "Data" = some d ∧ jidx d 0 = some d0 ∧
        jget d0 "Label" = some lv ∧ pyInt lv = some lab) := by
  simp only [getitem, Option.bind_eq_some, Option.map_eq_some'] at hget
  obtain ⟨bucket, hb, key, hk, a, ha, raw, hr, smp, hsmp, l0, hl0, heq⟩ := hget
  have haa : a = ann := by rw [hann] at ha; exact (Option.some.inj ha).symm
  subst haa
  have hlab : l0 = lab := (Prod.mk.injEq _ _ _ _ ▸ heq).2
  subst hlab
  constructor
  · intro f hf
    simp only [targetStep, hf, Option.some.injEq] at hl0
    exact hl0.symm
  · intro hf
    simp only [targetStep, hf] at hl0
    simp only [default_target_transform, Option.bind_eq_some] at hl0
    obtain ⟨r, h1, r0, h2, d, h3, d0, h4, lv, h5, h6⟩ := hl0
    exact ⟨r, r0, d, d0, lv, h1, h2, h3, h4, h5, h6⟩

/-- Witness for C8: a one-record dataset evaluated both with a hook
(label 7, annotation ignored) and without (label extracted through the
nested default path). -/
theorem getitem_label_witness :
    ((getitem c8dsHook (fun _ _ => some [1]) (fun _ => some 0) 0 = some (0, 7)) ∧
      (∀ f, c8dsHook.target_transform = some f → (7 : Int) = f JVal.jnull)) ∧
    ((getitem c8dsDefault (fun _ _ => some [1]) (fun _ => some 0) 0 = some (0, 5)) ∧
      (∃ r r0 d d0 lv,
        jget c8ann "Result" = some r ∧
        jidx r 0 = some r0 ∧ jget r0 "Data" = some d ∧ jidx d 0 = some d0 ∧
        jget d0 "Label" = some lv ∧ pyInt lv = some 5)) := by
  constructor
  · have h1 : getitem c8dsHook (fun _ _ => some [1]) (fun _ => some 0) 0 = some (0, 7) := rfl
    exact ⟨h1, (getitem_label c8dsHook (fun _ _ => some [1]) (fun _ => some 0)
      0 0 7 JVal.jnull rfl h1).1⟩
  · have h2 : getitem c8dsDefault (fun _ _ => some [1]) (fun _ => some 0) 0 = some (0, 5) := rfl
    exact ⟨h2, (getitem_label c8dsDefault (fun _ _ => some [1]) (fun _ => some 0)
      0 0 5 c8ann rfl h2).2 rfl⟩

theorem splitFirst_some_length {sep : List Char} (hsep : sep ≠ []) :
    ∀ {s a b : List Char}, splitFirst sep s = some (a, b) → b.length < s.length := by
  intro s
  induction s with
  | nil => intro a b h; simp [splitFirst] at h
  | cons c cs ih =>
    intro a b h
    rw [splitFirst] at h
    by_cases hp : sep.isPrefixOf (c :: cs)
    · rw [if_pos hp] at h
      have hb' : b = (c :: cs).drop sep.length := by
        cases h; rfl
      rw [hb', List.length_drop]
      have hsl : 0 < sep.length := List.length_pos.mpr hsep
      exact Nat.sub_lt (by simp) hsl
    · rw [if_neg hp] at h
      cases hrec : splitFirst sep cs with
      | none => rw [hrec] at h; cases h
      | some p =>
        obtain ⟨a', b'⟩ := p
        rw [hrec] at h
        have hbb : b = b' := by cases h; rfl
        rw [hbb]
        exact Nat.lt_succ_of_lt (ih hrec)

theorem pySplitAux_congr {sep : List Char} (hsep : sep ≠ []) :
    ∀ (fuel1 : Nat) {fuel2 : Nat} {s : List Char}, s.length ≤ fuel1 → s.length ≤ fuel2 →
      pySplitAux sep fuel1 s = pySplitAux sep fuel2 s := by
  intro fuel1
  induction fuel1 with
  | zero =>
    intro fuel2 s h1 h2
    have hs : s = [] := List.length_eq_zero.mp (Nat.le_zero.mp h1)
    subst hs
    cases fuel2 with
    | zero => rfl
    | succ g => simp [pySplitAux, splitFirst]
  | succ f ih =>
    intro fuel2 s h1 h2
    cases fuel2 with
    | zero =>
      have hs : s = [] := List.length_eq_zero.mp (Nat.le_zero.mp h2)
      subst hs
      simp [pySplitAux, splitFirst]
    | succ g =>
      simp only [pySplitAux]
      cases hsf : splitFirst sep s with
      | none => rfl
      | some p =>
        obtain ⟨a, b⟩ := p
        have hlt : b.length < s.length := splitFirst_some_length hsep hsf
        have hb1 : b.length ≤ f := Nat.lt_succ_iff.mp (Nat.lt_of_lt_of_le hlt h1)
        have hb2 : b.length ≤ g := Nat.lt_succ_iff.mp (Nat.lt_of_lt_of_le hlt h2)
        exact congrArg (fun l => a :: l) (ih hb1 hb2)

theorem pySplit_eq {sep : List Char} (hsep : sep ≠ []) (s : List Char) :
    pySplit sep s =
      match splitFirst sep s with
      | none => [s]
      | some (a, b) => a :: pySplit sep b := by
  cases hsf : splitFirst sep s with
  | none =>
    cases s with
    | nil => rfl
    | cons c cs => simp only [pySplit, List.length_cons, pySplitAux, hsf]
  | some p =>
    obtain ⟨a, b⟩ := p
    cases s with
    | nil => simp [splitFirst] at hsf
    | cons c cs =>
      simp only [pySplit, List.length_cons, pySplitAux, hsf]
      have hlt : b.length < cs.length + 1 :=
        splitFirst_some_length hsep hsf
      rw [pySplitAux_congr hsep cs.length (Nat.lt_succ_iff.mp hlt) (Nat.le_refl _)]

theorem pySplit_none {sep s : List Char} (hsep : sep ≠ [])
    (h : splitFirst sep s = none) : pySplit sep s = [s] := by
  rw [pySplit_eq hsep, h]

theorem pySplit_some {sep s a b : List Char} (hsep : sep ≠ [])
    (h : splitFirst sep s = some (a, b)) : pySplit sep s = a :: pySplit sep b := by
  rw [pySplit_eq hsep, h]

theorem pySplitAux_ne_nil (sep : List Char) (fuel : Nat) (s : List Char) :
    pySplitAux sep fuel s ≠ [] := by
  cases fuel with
  | zero => simp [pySplitAux]
  | succ f =>
    simp only [pySplitAux]
    cases splitFirst sep s with
    | none => simp
    | some p => obtain ⟨a, b⟩ := p; simp

theorem pySplit_get?_zero (sep s : List Char) :
    (pySplit sep s).get? 0 = some ((pySplit sep s).headD []) := by
  cases h : pySplit sep s with
  | nil => exact absurd h (pySplitAux_ne_nil sep s.length s)
  | cons x l => rfl

theorem isPrefixOf_eq_false {l1 l2 : List Char} (h : ¬ l1 <+: l2) :
    ¬ (l1.isPrefixOf l2 = true) := by
  rw [List.isPrefixOf_iff_prefix]; exact h

theorem splitFirst_cons_neg {sep : List Char} (c : Char) (cs : List Char)
    (h : ¬ sep <+: (c :: cs)) :
    splitFirst sep (c :: cs) =
      match splitFirst sep cs with
      | none => none
      | some (a, b) => some (c :: a, b) := by
  rw [splitFirst, if_neg (isPrefixOf_eq_false h)]

theorem splitFirst_self_append (sep C : List Char) (hsep : sep ≠ []) :
    splitFirst sep (sep ++ C) = some ([], C) := by
  rcases sep with _ | ⟨c, cs⟩
  · exact absurd rfl hsep
  · simp only [List.cons_append]
    rw [splitFirst, if_pos ((List.isPrefixOf_iff_prefix).mpr ⟨C, by simp⟩)]
    simp [List.drop_left]

/-- A non-empty `bucket` without a slash, followed by a slash, is never
a prefix of a list starting with a slash. -/
theorem not_prefix_slash {bucket : List Char} (rest : List Char) (hb : bucket ≠ [])
    (h2 : '/' ∉ bucket) : ¬ (bucket ++ ['/']) <+: ('/' :: rest) := by
  intro hp
  rcases bucket with _ | ⟨c, cs⟩
  · exact hb rfl
  · rw [List.cons_append, List.cons_prefix_cons] at hp
    apply h2
    rw [hp.1]
    exact List.mem_cons_self _ _

/-- A slashless, colonless, non-empty `bucket` followed by a slash never
occurs as a prefix starting inside `s' ++ ":" ++ rest` when `s'` is
slashless: the slash terminating the separator cannot be matched. -/
theorem not_prefix_scheme : ∀ (s' bucket rest : List Char), '/' ∉ s' → '/' ∉ bucket →
    ':' ∉ bucket → ¬ (bucket ++ ['/']) <+: (s' ++ ':' :: rest) := by
  intro s'
  induction s' with
  | nil =>
    intro bucket rest _ h2 h3 hp
    rcases bucket with _ | ⟨c, cs⟩
    · rw [List.nil_append, List.nil_append, List.cons_prefix_cons] at hp
      exact absurd hp.1 (by decide)
    · rw [List.nil_append, List.cons_append, List.cons_prefix_cons] at hp
      apply h3
      rw [hp.1]
      exact List.mem_cons_self _ _
  | cons a s'' ih =>
    intro bucket rest hs h2 h3 hp
    rcases bucket with _ | ⟨c, cs⟩
    · rw [List.nil_append, List.cons_append, List.cons_prefix_cons] at hp
      apply hs
      rw [← hp.1]
      exact List.mem_cons_self _ _
    · rw [List.cons_append, List.cons_append, List.cons_prefix_cons] at hp
      refine ih cs rest (fun hm => hs (List.mem_cons_of_mem _ hm))
        (fun hm => h2 (List.mem_cons_of_mem _ hm))
        (fun hm => h3 (List.mem_cons_of_mem _ hm)) hp.2

/-- First occurrence of `"//"` after a slashless prefix. -/
theorem splitFirst_dslash : ∀ (A C : List Char), '/' ∉ A →
    splitFirst ['/', '/'] (A ++ '/' :: '/' :: C) = some (A, C) := by
  intro A
  induction A with
  | nil =>
    intro C _
    rw [List.nil_append]
    have hself : ('/' :: '/' :: C) = ['/', '/'] ++ C := rfl
    rw [hself]
    exact splitFirst_self_append ['/', '/'] C (by decide)
  | cons a A' ih =>
    intro C hA
    have ha : a ≠ '/' := fun h => hA (h ▸ List.mem_cons_self a A')
    have hnp : ¬ (['/', '/'] <+: (a :: (A' ++ '/' :: '/' :: C))) := by
      intro hp
      rw [List.cons_prefix_cons] at hp
      exact ha hp.1.symm
    rw [List.cons_append, splitFirst_cons_neg a _ hnp,
      ih C (fun hm => hA (List.mem_cons_of_mem _ hm))]

theorem splitFirst_eq_none {sep : List Char} : ∀ {s : List Char},
    ¬ sep <:+: s → splitFirst sep s = none := by
  intro s
  induction s with
  | nil => intro _; rfl
  | cons c cs ih =>
    intro h
    rw [splitFirst_cons_neg c cs (fun hp => h hp.isInfix),
      ih (fun hi => h (List.infix_cons hi))]

/-- First occurrence of `bucket + "/"` in a well-formed URL is right
after the scheme separator, provided the bucket is non-empty and free of
slashes and colons and the scheme is free of slashes. -/
theorem splitFirst_bucket (bucket key : List Char) : ∀ (scheme : List Char),
    '/' ∉ scheme → '/' ∉ bucket → ':' ∉ bucket → bucket ≠ [] →
    splitFirst (bucket ++ ['/']) (scheme ++ ':' :: '/' :: '/' :: (bucket ++ '/' :: key)) =
      some (scheme ++ [':', '/', '/'], key) := by
  intro scheme
  induction scheme with
  | nil =>
    intro _ h2 h3 h4
    rw [List.nil_append]
    have e0 : splitFirst (bucket ++ ['/']) (bucket ++ '/' :: key) = some ([], key) := by
      have hshape : bucket ++ '/' :: key = (bucket ++ ['/']) ++ key := by simp
      rw [hshape]
      exact splitFirst_self_append _ key (by simp)
    have e1 : splitFirst (bucket ++ ['/']) ('/' :: (bucket ++ '/' :: key)) =
        some (['/'], key) := by
      rw [splitFirst_cons_neg _ _ (not_prefix_slash _ h4 h2), e0]
    have e2 : splitFirst (bucket ++ ['/']) ('/' :: '/' :: (bucket ++ '/' :: key)) =
        some (['/', '/'], key) := by
      rw [splitFirst_cons_neg _ _ (not_prefix_slash _ h4 h2), e1]
    have hnp : ¬ ((bucket ++ ['/']) <+: (':' :: '/' :: '/' :: (bucket ++ '/' :: key))) := by
      have := not_prefix_scheme [] bucket ('/' :: '/' :: (bucket ++ '/' :: key))
        (by simp) h2 h3
      simpa using this
    rw [splitFirst_cons_neg _ _ hnp, e2]
    rfl
  | cons a s'' ih =>
    intro hs h2 h3 h4
    have hnp : ¬ ((bucket ++ ['/']) <+:
        (a :: (s'' ++ ':' :: '/' :: '/' :: (bucket ++ '/' :: key)))) := by
      have := not_prefix_scheme (a :: s'') bucket ('/' :: '/' :: (bucket ++ '/' :: key))
        hs h2 h3
      simpa using this
    rw [List.cons_append, splitFirst_cons_neg _ _ hnp,
      ih (fun hm => hs (List.mem_cons_of_mem _ hm)) h2 h3 h4]
    simp

/-- If a single-character separator does not occur, `takeWhile` keeps
the whole list. -/
theorem takeWhile_of_single_none (c : Char) : ∀ (l : List Char),
    splitFirst [c] l = none → l.takeWhile (fun x => !(x == c)) = l := by
  intro l
  induction l with
  | nil => intro _; rfl
  | cons y ys ih =>
    intro h
    by_cases hy : y = c
    · subst hy
      rw [splitFirst,
        if_pos ((List.isPrefixOf_iff_prefix).mpr (show [y] <+: y :: ys from ⟨ys, rfl⟩))] at h
      cases h
    · have hnp : ¬ ([c] <+: (y :: ys)) := by
        intro hp
        rw [List.cons_prefix_cons] at hp
        exact hy hp.1.symm
      rw [splitFirst_cons_neg y ys hnp] at h
      cases hrec : splitFirst [c] ys with
      | none =>
        simp only [List.takeWhile_cons]
        rw [if_pos (by simp [hy]), ih hrec]
      | some p => obtain ⟨a, b⟩ := p; rw [hrec] at h; cases h

/-- The first field of a single-character Python split is the leading
run of non-separator characters. -/
theorem pySplit_single_headD (c : Char) : ∀ (l : List Char),
    (pySplit [c] l).headD [] = l.takeWhile (fun x => !(x == c)) := by
  intro l
  induction l with
  | nil => rfl
  | cons y ys ih =>
    by_cases hy : y = c
    · subst hy
      have hsf : splitFirst [y] (y :: ys) = some ([], ys) := by
        rw [splitFirst,
          if_pos ((List.isPrefixOf_iff_prefix).mpr (show [y] <+: y :: ys from ⟨ys, rfl⟩))]
        rfl
      rw [pySplit_some (List.cons_ne_nil _ _) hsf]
      simp [List.takeWhile_cons]
    · have hnp : ¬ ([c] <+: (y :: ys)) := by
        intro hp
        rw [List.cons_prefix_cons] at hp
        exact hy hp.1.symm
      cases hrec : splitFirst [c] ys with
      | none =>
        have hsf : splitFirst [c] (y :: ys) = none := by
          rw [splitFirst_cons_neg y ys hnp, hrec]
        rw [pySplit_none (List.cons_ne_nil _ _) hsf]
        simp only [List.headD, List.takeWhile_cons]
        rw [if_pos (by simp [hy]), takeWhile_of_single_none c ys hrec]
      | some p =>
        obtain ⟨a, b⟩ := p
        have hsf : splitFirst [c] (y :: ys) = some (y :: a, b) := by
          rw [splitFirst_cons_neg y ys hnp, hrec]
        rw [pySplit_some (List.cons_ne_nil _ _) hsf]
        have ha : a = ys.takeWhile (fun x => !(x == c)) := by
          rw [← ih, pySplit_some (List.cons_ne_nil _ _) hrec]
          rfl
        simp only [List.headD, List.takeWhile_cons]
        rw [if_pos (by simp [hy]), ← ha]

theorem takeWhile_bucket : ∀ (bucket rest : List Char), '/' ∉ bucket →
    (bucket ++ '/' :: rest).takeWhile (fun x => !(x == '/')) = bucket := by
  intro bucket
  induction bucket with
  | nil => intro rest _; simp [List.takeWhile_cons]
  | cons c cs ih =>
    intro rest h2
    have hc : c ≠ '/' := fun h => h2 (h ▸ List.mem_cons_self c cs)
    rw [List.cons_append]
    simp only [List.takeWhile_cons]
    rw [if_pos (by simp [hc]), ih rest (fun hm => h2 (List.mem_cons_of_mem _ hm))]

/-- Even when `"//"` occurs later in the record, the text before its
first occurrence still starts with `bucket ++ "/"`, so the first
slash-field is the bucket. -/
theorem takeWhile_dslash_trunc : ∀ (bucket : List Char) {key a b : List Char},
    '/' ∉ bucket → splitFirst ['/', '/'] (bucket ++ '/' :: key) = some (a, b) →
    a.takeWhile (fun x => !(x == '/')) = bucket := by
  intro bucket
  induction bucket with
  | nil =>
    intro key a b _ h
    rw [List.nil_append] at h
    by_cases hp : ['/', '/'] <+: ('/' :: key)
    · rw [splitFirst, if_pos ((List.isPrefixOf_iff_prefix).mpr hp)] at h
      have ha : a = [] := by cases h; rfl
      rw [ha]; rfl
    · rw [splitFirst_cons_neg _ _ hp] at h
      cases hrec : splitFirst ['/', '/'] key with
      | none => rw [hrec] at h; cases h
      | some p =>
        obtain ⟨a', b'⟩ := p
        rw [hrec] at h
        have ha : a = '/' :: a' := by cases h; rfl
        rw [ha]
        simp [List.takeWhile_cons]
  | cons c cs ih =>
    intro key a b h2 h
    have hc : c ≠ '/' := fun hcc => h2 (hcc ▸ List.mem_cons_self c cs)
    have hnp : ¬ (['/', '/'] <+: (c :: (cs ++ '/' :: key))) := by
      intro hp
      rw [List.cons_prefix_cons] at hp
      exact hc hp.1.symm
    rw [List.cons_append, splitFirst_cons_neg _ _ hnp] at h
    cases hrec : splitFirst ['/', '/'] (cs ++ '/' :: key) with
    | none => rw [hrec] at h; cases h
    | some p =>
      obtain ⟨a', b'⟩ := p
      rw [hrec] at h
      have ha : a = c :: a' := by cases h; rfl
      rw [ha]
      simp only [List.takeWhile_cons]
      rw [if_pos (by simp [hc]),
        ih (fun hm => h2 (List.mem_cons_of_mem _ hm)) hrec]

/-- Claim C5 (amended): on a URL `scheme://bucket/key` whose scheme and
bucket contain no slash, whose bucket is non-empty and contains no
colon, and whose key does not contain the string `bucket + "/"`,
parsing yields the first path segment as the bucket and the full
remainder as the key. -/
theorem parse_image_url_wellformed (scheme bucket key : List Char)
    (h1 : '/' ∉ scheme) (h2 : '/' ∉ bucket) (h3 : ':' ∉ bucket) (h4 : bucket ≠ [])
    (h5 : ¬ (bucket ++ ['/']) <:+: key) :
    parse_image_url (scheme ++ ':' :: '/' :: '/' :: (bucket ++ '/' :: key)) =
      some (bucket, key) := by
  have hA : splitFirst ['/', '/'] (scheme ++ ':' :: '/' :: '/' :: (bucket ++ '/' :: key)) =
      some (scheme ++ [':'], bucket ++ '/' :: key) := by
    have hshape : scheme ++ ':' :: '/' :: '/' :: (bucket ++ '/' :: key) =
        (scheme ++ [':']) ++ '/' :: '/' :: (bucket ++ '/' :: key) := by simp
    rw [hshape]
    exact splitFirst_dslash (scheme ++ [':']) _ (by
      intro hm
      rcases List.mem_append.mp hm with hm | hm
      · exact h1 hm
      · simp at hm)
  have hB : pySplit ['/', '/'] (scheme ++ ':' :: '/' :: '/' :: (bucket ++ '/' :: key)) =
      (scheme ++ [':']) :: pySplit ['/', '/'] (bucket ++ '/' :: key) :=
    pySplit_some (by decide) hA
  have hC : (pySplit ['/', '/'] (scheme ++ ':' :: '/' :: '/' :: (bucket ++ '/' :: key))).get? 1 =
      some ((pySplit ['/', '/'] (bucket ++ '/' :: key)).headD []) := by
    rw [hB, List.get?_cons_succ, pySplit_get?_zero]
  have hD : (pySplit ['/'] ((pySplit ['/', '/'] (bucket ++ '/' :: key)).headD [])).headD [] =
      bucket := by
    cases hsf : splitFirst ['/', '/'] (bucket ++ '/' :: key) with
    | none =>
      rw [pySplit_none (by decide) hsf]
      show (pySplit ['/'] (bucket ++ '/' :: key)).headD [] = bucket
      rw [pySplit_single_headD]
      exact takeWhile_bucket bucket _ h2
    | some p =>
      obtain ⟨a, b⟩ := p
      rw [pySplit_some (by decide) hsf]
      show (pySplit ['/'] a).headD [] = bucket
      rw [pySplit_single_headD]
      exact takeWhile_dslash_trunc bucket h2 hsf
  have hE : splitFirst (bucket ++ ['/'])
      (scheme ++ ':' :: '/' :: '/' :: (bucket ++ '/' :: key)) =
      some (scheme ++ [':', '/', '/'], key) :=
    splitFirst_bucket bucket key scheme h1 h2 h3 h4
  have hF : pySplit (bucket ++ ['/']) (scheme ++ ':' :: '/' :: '/' :: (bucket ++ '/' :: key)) =
      (scheme ++ [':', '/', '/']) :: pySplit (bucket ++ ['/']) key :=
    pySplit_some (by simp) hE
  have hkey : pySplit (bucket ++ ['/']) key = [key] :=
    pySplit_none (by simp) (splitFirst_eq_none h5)
  unfold parse_image_url
  rw [hC]
  simp only [hD, hF, hkey, List.get?_cons_succ]
  rfl

/-- Counterexample to claim C5 as stated: in `tos://b/x/b/y` the key
after the first path segment is `x/b/y`, but the code's
`url.split(bucket + "/")[1]` truncates at the second occurrence of
`"b/"` and returns `x/`. -/
theorem parse_image_url_counterexample :
    parse_image_url "tos://b/x/b/y".data ≠ some ("b".data, "x/b/y".data) ∧
    parse_image_url "tos://b/x/b/y".data = some ("b".data, "x/".data) := by
  constructor
  · decide
  · decide

/-- Witness for C5 (amended) at the spec's example URL:
`tos://my-bucket/path/to/img.jpg` parses to bucket `my-bucket` and key
`path/to/img.jpg`. -/
theorem parse_image_url_wellformed_witness :
    parse_image_url "tos://my-bucket/path/to/img.jpg".data =
      some ("my-bucket".data, "path/to/img.jpg".data) := by
  have h := parse_image_url_wellformed "tos".data "my-bucket".data "path/to/img.jpg".data
    (by decide) (by decide) (by decide) (by decide) (by decide)
  have heq : "tos://my-bucket/path/to/img.jpg".data =
      "tos".data ++ ':' :: '/' :: '/' :: ("my-bucket".data ++ '/' :: "path/to/img.jpg".data) := by
    decide
  rw [heq]
  exact h

theorem parse_image_manifest_core : ∀ (lines : List JVal) (mi : ManifestInfo),
    parse_image_manifest lines = some mi →
    (mi.buckets.length = lines.length ∧ mi.keys.length = lines.length ∧
      mi.annotations.length = lines.length) ∧
    (∀ i line, lines.get? i = some line →
      ∃ d urlv url bk, jget line "Data" = some d ∧ jget d "ImageURL" = some urlv ∧
        asStr urlv = some url ∧ parse_image_url url.data = some bk ∧
        mi.buckets.get? i = some (String.mk bk.1) ∧
        mi.keys.get? i = some (String.mk bk.2) ∧
        mi.annotations.get? i = jget line "Annotation") := by
  intro lines
  induction lines with
  | nil =>
    intro mi h
    have hmi : mi = ⟨[], [], []⟩ := (Option.some.inj h).symm
    subst hmi
    exact ⟨⟨rfl, rfl, rfl⟩, fun i line hl => by simp at hl⟩
  | cons line rest ih =>
    intro mi h
    simp only [parse_image_manifest, Option.bind_eq_some, Option.map_eq_some'] at h
    obtain ⟨d, hd, urlv, hu, url, hs, bk, hbk, ann, hann, mi', hrest, hmi⟩ := h
    obtain ⟨⟨hl1, hl2, hl3⟩, hidx⟩ := ih mi' hrest
    subst hmi
    refine ⟨⟨by simp [hl1], by simp [hl2], by simp [hl3]⟩, ?_⟩
    intro i l hl
    cases i with
    | zero =>
      have hline : l = line := (Option.some.inj hl).symm
      subst hline
      exact ⟨d, urlv, url, bk, hd, hu, hs, hbk, rfl, rfl, by simp [hann]⟩
    | succ j =>
      have hl' : rest.get? j = some l := by simpa using hl
      obtain ⟨d', urlv', url', bk', h1, h2, h3, h4, h5, h6, h7⟩ := hidx j l hl'
      exact ⟨d', urlv', url', bk', h1, h2, h3, h4, by simpa using h5,
        by simpa using h6, by simpa using h7⟩

/-- Claim C9: parsing a valid manifest yields three parallel arrays of
equal length (the number of lines), entry `i` of each derived from line
`i`, and a dataset built from them has `length()` equal to that number
of lines. -/
theorem parse_manifest_parallel (lines : List JVal) (mi : ManifestInfo)
    (h : parse_image_manifest lines = some mi) :
    (mi.buckets.length = lines.length ∧ mi.keys.length = lines.length ∧
      mi.annotations.length = lines.length) ∧
    (∀ i line, lines.get? i = some line →
      ∃ d urlv url bk, jget line "Data" = some d ∧ jget d "ImageURL" = some urlv ∧
        asStr urlv = some url ∧ parse_image_url url.data = some bk ∧
        mi.buckets.get? i = some (String.mk bk.1) ∧
        mi.keys.get? i = some (String.mk bk.2) ∧
        mi.annotations.get? i = jget line "Annotation") ∧
    (∀ (Samp : Type) (decode : Option (List Nat → Samp)) (transform : Option (Samp → Samp))
        (target_transform : Option (JVal → Int)),
      ∃ ds, tos_init Samp (some mi) decode transform target_transform = Except.ok ds ∧
        tos_len ds = lines.length) := by
  obtain ⟨⟨hl1, hl2, hl3⟩, hidx⟩ := parse_image_manifest_core lines mi h
  refine ⟨⟨hl1, hl2, hl3⟩, hidx, ?_⟩
  intro Samp decode transform target_transform
  refine ⟨{ buckets := mi.buckets, keys := mi.keys, annotations := mi.annotations,
            decode := decode, transform := transform,
            target_transform := target_transform }, ?_, ?_⟩
  · simp only [tos_init, if_pos (And.intro (hl1.trans hl2.symm) (hl1.trans hl3.symm))]
  · simpa [tos_len] using hl1

/-- Witness for C9 on a concrete one-line manifest. -/
theorem parse_manifest_parallel_witness :
    (c9mi.buckets.length = 1 ∧ c9mi.keys.length = 1 ∧ c9mi.annotations.length = 1) ∧
    (∃ d urlv url bk, jget c9line "Data" = some d ∧ jget d "ImageURL" = some urlv ∧
      asStr urlv = some url ∧ parse_image_url url.data = some bk ∧
      c9mi.buckets.get? 0 = some (String.mk bk.1) ∧
      c9mi.keys.get? 0 = some (String.mk bk.2) ∧
      c9mi.annotations.get? 0 = jget c9line "Annotation") ∧
    (∃ ds, tos_init Nat (some c9mi) none none none = Except.ok ds ∧ tos_len ds = 1) := by
  have h := parse_manifest_parallel [c9line] c9mi (by rfl)
  exact ⟨h.1, h.2.1 0 c9line rfl, h.2.2 Nat none none none⟩

theorem pick_mem : ∀ (pool : List Nat) (i : Nat), i < pool.length →
    (pick pool i).1 ∈ pool := by
  intro pool
  induction pool with
  | nil => intro i h; simp at h
  | cons x xs ih =>
    intro i h
    cases i with
    | zero => exact List.mem_cons_self _ _
    | succ j =>
      exact List.mem_cons_of_mem _ (ih j (Nat.lt_of_succ_lt_succ h))

theorem pick_length : ∀ (pool : List Nat) (i : Nat), i < pool.length →
    (pick pool i).2.length + 1 = pool.length := by
  intro pool
  induction pool with
  | nil => intro i h; simp at h
  | cons x xs ih =>
    intro i h
    cases i with
    | zero => rfl
    | succ j =>
      simp only [pick, List.length_cons]
      rw [ih j (Nat.lt_of_succ_lt_succ h)]

theorem pick_subset : ∀ (pool : List Nat) (i x : Nat), x ∈ (pick pool i).2 → x ∈ pool := by
  intro pool
  induction pool with
  | nil => intro i x h; simp [pick] at h
  | cons y ys ih =>
    intro i x h
    cases i with
    | zero => exact List.mem_cons_of_mem _ h
    | succ j =>
      simp only [pick, List.mem_cons] at h
      rcases h with h | h
      · exact h ▸ List.mem_cons_self _ _
      · exact List.mem_cons_of_mem _ (ih j x h)

theorem pick_nodup : ∀ (pool : List Nat) (i : Nat), i < pool.length → pool.Nodup →
    (pick pool i).2.Nodup ∧ (pick pool i).1 ∉ (pick pool i).2 := by
  intro pool
  induction pool with
  | nil => intro i h; simp at h
  | cons y ys ih =>
    intro i h hnd
    have hy : y ∉ ys := (List.nodup_cons.mp hnd).1
    have hys : ys.Nodup := (List.nodup_cons.mp hnd).2
    cases i with
    | zero => exact ⟨hys, hy⟩
    | succ j =>
      have hj : j < ys.length := Nat.lt_of_succ_lt_succ h
      obtain ⟨h1, h2⟩ := ih j hj hys
      constructor
      · simp only [pick]
        rw [List.nodup_cons]
        exact ⟨fun hmem => hy (pick_subset ys j y hmem), h1⟩
      · simp only [pick, List.mem_cons]
        rintro (hc | hc)
        · exact hy (hc ▸ pick_mem ys j hj)
        · exact h2 hc

theorem sampleGo_length : ∀ (k sd : Nat) (pool : List Nat), k ≤ pool.length →
    (sampleGo sd k pool).length = k := by
  intro k
  induction k with
  | zero => intro sd pool _; rfl
  | succ k' ih =>
    intro sd pool h
    cases pool with
    | nil => simp at h
    | cons x xs =>
      have hlen : (x :: xs).length > 0 := by simp
      have hi : sd % (x :: xs).length < (x :: xs).length := Nat.mod_lt _ hlen
      have hpl := pick_length (x :: xs) (sd % (x :: xs).length) hi
      have hk' : k' ≤ (pick (x :: xs) (sd % (x :: xs).length)).2.length := by
        omega
      simp only [sampleGo, List.length_cons]
      exact congrArg (· + 1)
        (ih (lcg sd) (pick (x :: xs) (sd % (xs.length + 1))).2 (by simpa using hk'))

theorem sampleGo_subset : ∀ (k sd : Nat) (pool : List Nat) (x : Nat),
    x ∈ sampleGo sd k pool → x ∈ pool := by
  intro k
  induction k with
  | zero => intro sd pool x h; simp [sampleGo] at h
  | succ k' ih =>
    intro sd pool x h
    cases pool with
    | nil => simp [sampleGo] at h
    | cons y ys =>
      simp only [sampleGo, List.mem_cons] at h
      rcases h with h | h
      · have hlen : (y :: ys).length > 0 := by simp
        exact h ▸ pick_mem (y :: ys) _ (Nat.mod_lt _ hlen)
      · exact pick_subset (y :: ys) _ x (ih (lcg sd) _ x h)

theorem sampleGo_nodup : ∀ (k sd : Nat) (pool : List Nat), pool.Nodup →
    (sampleGo sd k pool).Nodup := by
  intro k
  induction k with
  | zero => intro sd pool _; exact List.nodup_nil
  | succ k' ih =>
    intro sd pool hnd
    cases pool with
    | nil => exact List.nodup_nil
    | cons y ys =>
      simp only [sampleGo]
      have hlen : (y :: ys).length > 0 := by simp
      have hi : sd % (y :: ys).length < (y :: ys).length := Nat.mod_lt _ hlen
      obtain ⟨h1, h2⟩ := pick_nodup (y :: ys) _ hi hnd
      rw [List.nodup_cons]
      exact ⟨fun hmem => h2 (sampleGo_subset k' (lcg sd) _ _ hmem), ih (lcg sd) _ h1⟩

theorem npChoice_length {seed n k : Nat} (h : k ≤ n) : (npChoice seed n k).length = k := by
  have := sampleGo_length k (lcg seed) (List.range n) (by simpa using h)
  simpa [npChoice] using this

theorem npChoice_lt {seed n k x : Nat} (h : x ∈ npChoice seed n k) : x < n := by
  have := sampleGo_subset k (lcg seed) (List.range n) x h
  simpa using this

theorem npChoice_nodup (seed n k : Nat) : (npChoice seed n k).Nodup :=
  sampleGo_nodup k (lcg seed) (List.range n) (List.nodup_range n)

theorem dataset_split_created (ds : PyDataset) (training_dir testing_dir : String)
    ( ratio : ℚ) (random_state : Nat) (hc : ds.created = true) :
    dataset_split ds training_dir testing_dir ratio random_state =
      Except.ok (split_ok ds training_dir testing_dir ratio random_state) := by
  unfold dataset_split split_ok
  rw [if_pos hc]

theorem enumFrom_map_snd {α : Type} : ∀ (n : Nat) (l : List α),
    (l.enumFrom n).map Prod.snd = l := by
  intro n l
  induction l generalizing n with
  | nil => rfl
  | cons x xs ih => simp only [List.enumFrom, List.map_cons, ih]

/-- The single routing pass sends to each destination exactly the lines
whose position passes that destination's membership test, in original
order. -/
theorem route_filter (test_index_set : List Nat)
    (local_path training_dir testing_dir : String) :
    ∀ (index : Nat) (L : List JVal),
    (route test_index_set local_path training_dir testing_dir index L).1 =
      ((L.enumFrom index).filter
        (fun p => !(decide (p.1 ∈ test_index_set)))).map Prod.snd ∧
    (route test_index_set local_path training_dir testing_dir index L).2.1 =
      ((L.enumFrom index).filter
        (fun p => decide (p.1 ∈ test_index_set))).map Prod.snd := by
  intro index L
  induction L generalizing index with
  | nil => exact ⟨rfl, rfl⟩
  | cons line rest ih =>
    obtain ⟨ih1, ih2⟩ := ih (index + 1)
    by_cases hmem : index ∈ test_index_set
    · constructor
      · simp [route, hmem, List.enumFrom, ih1]
      · simp [route, hmem, List.enumFrom, ih2]
    · constructor
      · simp [route, hmem, List.enumFrom, ih1]
      · simp [route, hmem, List.enumFrom, ih2]

/-- Claim C3: a split on a non-materialized dataset fails with the
not-materialized error; the `created` check precedes all file-system
work, so the error branch returns no `SplitResult` (hence no directory,
manifest, or copy effects). A split on a materialized dataset never
produces that error. -/
theorem split_requires_created (ds : PyDataset) (training_dir testing_dir : String)
    ( ratio : ℚ) (random_state : Nat) :
    (ds.created = false →
      dataset_split ds training_dir testing_dir ratio random_state =
        Except.error SplitError.notMaterialized) ∧
    (ds.created = true →
      ∃ res, dataset_split ds training_dir testing_dir ratio random_state =
        Except.ok res) := by
  constructor
  · intro h
    unfold dataset_split
    rw [if_neg (by simp [h])]
  · intro h
    exact ⟨split_ok ds training_dir testing_dir ratio random_state,
      dataset_split_created ds training_dir testing_dir ratio random_state h⟩

/-- Witness for C3 at concrete datasets. -/
theorem split_requires_created_witness :
    (dataset_split c3uncreated "t" "u" (1/2) 0 =
      Except.error SplitError.notMaterialized) ∧
    (∃ res, dataset_split c3created "t" "u" (1/2) 0 = Except.ok res) :=
  ⟨(split_requires_created c3uncreated "t" "u" (1/2) 0).1 rfl,
   (split_requires_created c3created "t" "u" (1/2) 0).2 rfl⟩

/-- Claim C2: the sampling in `split` is deterministic — two splits over
datasets with the same `data_count`, the same ratio and the same seed
compute identical test index sets, whatever the directories and
manifest contents. -/
theorem split_deterministic (ds1 ds2 : PyDataset) (td1 sd1 td2 sd2 : String)
    ( ratio : ℚ) (random_state : Nat) (hc1 : ds1.created = true)
    (hc2 : ds2.created = true) (hN : ds1.data_count = ds2.data_count) :
    ∃ r1 r2, dataset_split ds1 td1 sd1 ratio random_state = Except.ok r1 ∧
      dataset_split ds2 td2 sd2 ratio random_state = Except.ok r2 ∧
      r1.test_index_set = r2.test_index_set := by
  refine ⟨split_ok ds1 td1 sd1 ratio random_state, split_ok ds2 td2 sd2 ratio random_state,
    dataset_split_created ds1 td1 sd1 ratio random_state hc1,
    dataset_split_created ds2 td2 sd2 ratio random_state hc2, ?_⟩
  show npChoice random_state ds1.data_count
      ((Int.floor ((ds1.data_count : ℚ) * (1 - ratio))).toNat) =
    npChoice random_state ds2.data_count
      ((Int.floor ((ds2.data_count : ℚ) * (1 - ratio))).toNat)
  rw [hN]

/-- Witness for C2 at concrete datasets with equal counts. -/
theorem split_deterministic_witness :
    ∃ r1 r2, dataset_split c2ds1 "t1" "u1" (1/2) 7 = Except.ok r1 ∧
      dataset_split c2ds2 "t2" "u2" (1/2) 7 = Except.ok r2 ∧
      r1.test_index_set = r2.test_index_set :=
  split_deterministic c2ds1 c2ds2 "t1" "u1" "t2" "u2" (1/2) 7 rfl rfl rfl

/-- Claim C6: with ratio `1.0`, the test manifest is empty and the train
manifest is the original manifest, record for record in the original
order. -/
theorem split_ratio_one (ds : PyDataset) (training_dir testing_dir : String)
    (random_state : Nat) (hc : ds.created = true) :
    ∃ res, dataset_split ds training_dir testing_dir 1 random_state = Except.ok res ∧
      res.test_manifest = [] ∧ res.train_manifest = ds.manifest := by
  have hk : (Int.floor ((ds.data_count : ℚ) * (1 - 1))).toNat = 0 := by norm_num
  refine ⟨split_ok ds training_dir testing_dir 1 random_state,
    dataset_split_created ds training_dir testing_dir 1 random_state hc, ?_, ?_⟩
  · show (route (npChoice random_state ds.data_count
        ((Int.floor ((ds.data_count : ℚ) * (1 - 1))).toNat))
        ds.local_path training_dir testing_dir 0 ds.manifest).2.1 = []
    rw [hk]
    have h := (route_filter (npChoice random_state ds.data_count 0)
      ds.local_path training_dir testing_dir 0 ds.manifest).2
    have hempty : npChoice random_state ds.data_count 0 = [] := rfl
    rw [h, hempty]
    simp
  · show (route (npChoice random_state ds.data_count
        ((Int.floor ((ds.data_count : ℚ) * (1 - 1))).toNat))
        ds.local_path training_dir testing_dir 0 ds.manifest).1 = ds.manifest
    rw [hk]
    have h := (route_filter (npChoice random_state ds.data_count 0)
      ds.local_path training_dir testing_dir 0 ds.manifest).1
    have hempty : npChoice random_state ds.data_count 0 = [] := rfl
    rw [h, hempty]
    simp [enumFrom_map_snd]

/-- Witness for C6 at a concrete two-record dataset. -/
theorem split_ratio_one_witness :
    ∃ res, dataset_split c6ds "t" "u" 1 5 = Except.ok res ∧
      res.test_manifest = [] ∧ res.train_manifest = c6ds.manifest :=
  split_ratio_one c6ds "t" "u" 5 rfl

/-- Claim C7: split routes the manifest in one pass by position — a
record lands in the test manifest exactly when its position is in the
test index set and in the train manifest otherwise, each destination
preserving the original relative order. -/
theorem split_order_preserving (ds : PyDataset) (training_dir testing_dir : String)
    ( ratio : ℚ) (random_state : Nat) (hc : ds.created = true) :
    ∃ res, dataset_split ds training_dir testing_dir ratio random_state = Except.ok res ∧
      res.test_manifest = ((ds.manifest.enum).filter
        (fun p => decide (p.1 ∈ res.test_index_set))).map Prod.snd ∧
      res.train_manifest = ((ds.manifest.enum).filter
        (fun p => !(decide (p.1 ∈ res.test_index_set)))).map Prod.snd := by
  refine ⟨split_ok ds training_dir testing_dir ratio random_state,
    dataset_split_created ds training_dir testing_dir ratio random_state hc, ?_, ?_⟩
  · exact (route_filter (npChoice random_state ds.data_count
      ((Int.floor ((ds.data_count : ℚ) * (1 - ratio))).toNat))
      ds.local_path training_dir testing_dir 0 ds.manifest).2
  · exact (route_filter (npChoice random_state ds.data_count
      ((Int.floor ((ds.data_count : ℚ) * (1 - ratio))).toNat))
      ds.local_path training_dir testing_dir 0 ds.manifest).1

/-- Witness for C7 at a concrete three-record dataset. -/
theorem split_order_preserving_witness :
    ∃ res, dataset_split c7ds "t" "u" (1/3) 2 = Except.ok res ∧
      res.test_manifest = ((c7ds.manifest.enum).filter
        (fun p => decide (p.1 ∈ res.test_index_set))).map Prod.snd ∧
      res.train_manifest = ((c7ds.manifest.enum).filter
        (fun p => !(decide (p.1 ∈ res.test_index_set)))).map Prod.snd :=
  split_order_preserving c7ds "t" "u" (1/3) 2 rfl

/-- Claim C1 (code bug, evaluated at the failing input): the program
computes the test-set size `math.floor(line_count * (1 - ratio))` in
IEEE binary64 arithmetic, and at `line_count = 10` with the default
`ratio = 0.8` it draws 1 test index, not the `floor(10 * (1 - 0.8)) = 2`
the claim (and the spec's worked example) state. Concretely: the
decimal literal `0.8` is stored as the double `7205759403792794·2^-53`,
`1 - 0.8` evaluates to `0.19999999999999995…`, `10 * (1 - 0.8)` to
`1.9999999999999996`, and its floor is 1 — while the exact rational
value of `floor(10 * (1 - 8/10))` is 2, which is also what the
idealized `split_ok` model records as the test `data_count`. -/
theorem split_size_float_bug :
    roundFracB64 8 10 = (7205759403792794, -53) ∧
    float_floor_size 10 7205759403792794 (-53) = 1 ∧
    Int.floor ((10 : ℚ) * (1 - 8 / 10)) = 2 ∧
    (split_ok ⟨"d", 10, true, []⟩ "t" "u" (8 / 10) 0).test_dataset.data_count = 2 := by
  refine ⟨by decide, by decide, ?_, ?_⟩
  · have h2 : ((10 : ℚ) * (1 - 8 / 10)) = ((2 : ℤ) : ℚ) := by norm_num
    rw [h2, Int.floor_intCast]
  · show (Int.floor (((10 : Nat) : ℚ) * (1 - 8 / 10))).toNat = 2
    have h2 : (((10 : Nat) : ℚ) * (1 - 8 / 10)) = ((2 : ℤ) : ℚ) := by norm_num
    rw [h2, Int.floor_intCast]
    rfl

end MLPlatform

